import Mathlib

/-!
Verification development for the ALEPH real-time 3D reservoir visualization
(`ReservoirView` and its scene components: `Connectome`, `FrontalLobe`,
`InjectFlow`, `HebbianWeb`, `EntropyRing`, plus the deterministic layout
generators `generateNeocortex` / `generateFrontalLobe` and the `mulberry32`
PRNG).

Embedding conventions:
- JavaScript numbers are embedded as exact rationals; 32-bit integer
  operations of the PRNG are embedded as natural numbers reduced mod 2^32.
- The transcendental functions used only for cosmetic geometry (sin, cos,
  acos and the constant pi) are abstracted into a `RealOps` record of
  rational-valued functions; every theorem below holds for every
  interpretation of that record, so nothing about the claims depends on the
  actual trigonometric values.
- Per-frame GPU attribute buffers are embedded as functions `Nat -> Vec3`;
  a frame is a pure transformer of those buffers, exactly mirroring the
  index-by-index writes of the `useFrame` bodies.
- Fallible lookups (`xs[i]` on a possibly short array) become `List.get?` /
  `List.getD`, mirroring the undefined-checks of the source.
-/

namespace Aleph

/-- Capacity of the reservoir population (`MAX_NEURONS` in the source). -/
def MAX_NEURONS : Nat := 2500

/-- `BRAIN_RADIUS` constant of the source. -/
def BRAIN_RADIUS : ℚ := 35

/-- A 3D vector with exact rational coordinates. -/
structure Vec3 where
  x : ℚ
  y : ℚ
  z : ℚ
deriving DecidableEq, Repr

/-- 2^32, the modulus of all 32-bit operations in `mulberry32`. -/
def U32 : Nat := 4294967296

/-- `Math.imul`: 32-bit multiplication (low 32 bits of the product). -/
def imul (x y : Nat) : Nat := (x * y) % U32

/-- One step of the `mulberry32` PRNG. The JS closure state `a` is kept mod
2^32 (all its uses in the body coerce to 32 bits, and the additions stay
exact in double precision for every call count reachable here). Returns the
new state and the 32-bit output word; the JS generator returns that word
divided by 2^32. -/
def mulberry32Step (a : Nat) : Nat × Nat :=
  let a2 := (a + 0x6D2B79F5) % U32
  let t1 := imul (Nat.xor a2 (a2 >>> 15)) (Nat.lor a2 1)
  let t2 := Nat.xor t1 ((t1 + imul (Nat.xor t1 (t1 >>> 7)) (Nat.lor t1 61)) % U32)
  (a2, Nat.xor t2 (t2 >>> 14))

/-- The unit-interval value of a 32-bit PRNG output word: `t / 4294967296`. -/
def rngUnit (t : Nat) : ℚ := (t : ℚ) / (U32 : ℚ)

/-- Exact decision of the real inequality `r < 5 / (sqrt d2 + 0.1)` for
rational `r` and rational squared distance `d2 >= 0`. This is the
small-world acceptance test `rng() < 5.0 / (dist + 0.1)` of the source with
the floating square root made exact (see `ltInvDist_iff`). -/
def ltInvDist (r d2 : ℚ) : Bool :=
  if r ≤ 0 then true
  else if (50 : ℚ) ≤ r then false
  else decide (r ^ 2 * d2 < (5 - r / 10) ^ 2)

/-- The acceptance decision of one sampler attempt, given the proximity draw
`r1`, the long-range draw `r2` and the squared distance `d2`:
`rng() < prob || rng() < 0.01` in the source. -/
def acceptPair (r1 r2 d2 : ℚ) : Bool :=
  ltInvDist r1 d2 || decide (r2 < 1 / 100)

/-- The bounded rejection-sampling loop of the `HebbianWeb` `pairs` memo:
`while (p.length < targetPairs && attempts < 10000)`, drawing
`i = floor(rng()*nCount)`, `j = floor(rng()*nCount)`, skipping `i === j`,
and accepting by proximity (`rng() < 5/(dist+0.1)`) or, on failure of that
test only (JS short-circuit, which also decides how many draws are
consumed), by the flat 1% long-range chance. `fuel` is the number of
remaining attempts, `st` the PRNG state, `got` the number of pairs already
collected. `floor(rng()*nCount)` is embedded exactly as `t * nCount / 2^32`
in natural division. -/
def swLoop (npos : List Vec3) (nCount : Nat) : Nat → Nat → Nat → List (Nat × Nat)
  | 0, _, _ => []
  | fuel + 1, st, got =>
    if got < 1000 then
      let s1 := mulberry32Step st
      let i := s1.2 * nCount / U32
      let s2 := mulberry32Step s1.1
      let j := s2.2 * nCount / U32
      if i = j then swLoop npos nCount fuel s2.1 got
      else
        match npos.get? i, npos.get? j with
        | some pi_, some pj =>
          let d2 := (pi_.x - pj.x) ^ 2 + (pi_.y - pj.y) ^ 2 + (pi_.z - pj.z) ^ 2
          let s3 := mulberry32Step s2.1
          if ltInvDist (rngUnit s3.2) d2 then
            (i, j) :: swLoop npos nCount fuel s3.1 (got + 1)
          else
            let s4 := mulberry32Step s3.1
            if rngUnit s4.2 < 1 / 100 then
              (i, j) :: swLoop npos nCount fuel s4.1 (got + 1)
            else swLoop npos nCount fuel s4.1 got
        | _, _ => swLoop npos nCount fuel s2.1 got
    else []

/-- The `pairs` memo of `HebbianWeb`: empty input short-circuits to `[]`;
otherwise the bounded loop runs with seed 101, target 1000 pairs, at most
10000 attempts, over `nCount = min(neuronPositions.length, MAX_NEURONS)`. -/
def smallWorldPairs (neuronPositions : List Vec3) : List (Nat × Nat) :=
  if neuronPositions.length = 0 then []
  else swLoop neuronPositions (min neuronPositions.length MAX_NEURONS) 10000 101 0

/-- One entry of the `reservoir_activity` snapshot field, which accepts two
shapes per element: a plain float, or an `[index, value]` pair (the source
tests `Array.isArray(activity[i])` and reads element `[1]`). -/
inductive ActEntry where
  | scalar (v : ℚ)
  | pair (idx : ℚ) (v : ℚ)
deriving DecidableEq, Repr

/-- The guarded activation read shared by `Connectome` and `HebbianWeb`:
`val = 0; if (Array.isArray(activity[i])) val = activity[i][1]; else if
(i < activity.length) val = activity[i] || 0;`. An index at or beyond the
array length reads `undefined`, fails both tests and leaves `val = 0`. -/
def actVal (activity : List ActEntry) (i : Nat) : ℚ :=
  match activity.get? i with
  | some (ActEntry.pair _ v) => v
  | some (ActEntry.scalar v) => v
  | none => 0

/-- Abstracted real-valued operations (`Math.PI`, `Math.sin`, `Math.cos`,
`Math.acos`). Every theorem below is proved for an arbitrary
interpretation, so no claim depends on actual trigonometric values. -/
structure RealOps where
  pi : ℚ
  sin : ℚ → ℚ
  cos : ℚ → ℚ
  acos : ℚ → ℚ

/-- A trivial interpretation of `RealOps`, used to instantiate universally
quantified theorems at concrete inputs. -/
def zeroOps : RealOps := ⟨0, fun _ => 0, fun _ => 0, fun _ => 0⟩

/-- The region palette plus activation coloring of the `Connectome` frame
body: `rId = (regionMap && i < regionMap.length) ? regionMap[i] : 3`, the
four-color palette, `intensity = max(0, val)`, `flash = intensity^2 * 0.5`,
and the ambient floor `(+0.02, +0.02, +0.04)`. -/
def connectomeColor (activity : List ActEntry) (regionMap : List Nat) (i : Nat) : Vec3 :=
  let val := actVal activity i
  let rId := regionMap.getD i 3
  let p : Vec3 :=
    if rId = 0 then ⟨1, 8/10, 1/10⟩
    else if rId = 1 then ⟨1/10, 1, 2/10⟩
    else if rId = 2 then ⟨6/10, 0, 1⟩
    else ⟨1/10, 3/10, 1/2⟩
  let intensity := max 0 val
  let flash := intensity * intensity * (1/2)
  ⟨p.x * intensity + flash + 1/50,
   p.y * intensity + flash + 1/50,
   p.z * intensity + flash + 1/25⟩

/-- The jittered position write of the `Connectome` frame body: the
authoritative backend position plus bounded time-based drift
(`sin(time*0.3 + i)*0.15` etc.). -/
def connectomePoint (ops : RealOps) (time : ℚ) (npos : List Vec3) (i : Nat) : Vec3 :=
  let bp := npos.getD i ⟨0, 0, 0⟩
  ⟨bp.x + ops.sin (time * (3/10) + (i : ℚ)) * (3/20),
   bp.y + ops.cos (time * (4/10) + (i : ℚ) * 2) * (3/20),
   bp.z + ops.sin (time * (2/10) + (i : ℚ) * (1/2)) * (3/20)⟩

/-- One `useFrame` tick of `Connectome` as a pure transformer of the
(position, color) buffers: `backendCount = neuronPositions ?
neuronPositions.length : 0`, `count = min(backendCount, MAX_NEURONS)`; every
index `i < MAX_NEURONS` is overwritten — active indices from the backend
position and the activation/region color, all others forced to the origin
and to the fully dark color `(0,0,0)`. -/
def connectomeFrame (ops : RealOps) (time : ℚ) (activity : List ActEntry)
    (regionMap : List Nat) (neuronPositions : Option (List Vec3))
    (buf : (Nat → Vec3) × (Nat → Vec3)) : (Nat → Vec3) × (Nat → Vec3) :=
  let nlist := neuronPositions.getD []
  let count := min nlist.length MAX_NEURONS
  (fun i =>
    if i < MAX_NEURONS then
      if i < count then connectomePoint ops time nlist i else ⟨0, 0, 0⟩
    else buf.1 i,
   fun i =>
    if i < MAX_NEURONS then
      if i < count then connectomeColor activity regionMap i else ⟨0, 0, 0⟩
    else buf.2 i)

/-- The per-index color of the `FrontalLobe` frame body:
`val = (activations && activations[i]) ? activations[i] : 0`; above the
0.05 threshold the gold/orange ramp scaled by the activation, otherwise the
dark latent color `(0.02, 0.01, 0.03)`. -/
def frontalColor (activations : List ℚ) (i : Nat) : Vec3 :=
  let val := activations.getD i 0
  if val > 1/20 then ⟨val * (9/10) + 1/10, val * (1/2), val * (1/5)⟩
  else ⟨1/50, 1/100, 3/100⟩

/-- One `useFrame` tick of `FrontalLobe` as a pure transformer of the color
buffer: all 512 concept indices are overwritten from `frontalColor`. -/
def frontalFrame (activations : List ℚ) (buf : Nat → Vec3) : Nat → Vec3 :=
  fun i => if i < 512 then frontalColor activations i else buf i

/-- One emitted `InjectFlow` line: reservoir index, paired concept index
(`i mod activations.length`), the source activation, and the two endpoints
(frontal concept position, backend reservoir position). -/
structure FlowLine where
  resIdx : Nat
  srcIdx : Nat
  val : ℚ
  src : Vec3
  dst : Vec3
deriving DecidableEq, Repr

/-- The `InjectFlow` loop over reservoir indices (`for i = 0; i < size && i
< neuronPositions.length && lineIdx < 300`): skip unless the region map
tags `i` Semantic (`regionMap[i] !== 0` skips, including out-of-range
reads); pair via `actIdx = i % activations.length`; skip when
`val < 0.15`; emit only when both endpoint lookups are defined. Returns the
emitted lines and the final `lineIdx` counter (which sets the draw range). -/
def injectGo (regionMap : List Nat) (activations : List ℚ) (frontVecs : List Vec3)
    (npos : List Vec3) : List Nat → Nat → List FlowLine × Nat
  | [], lineIdx => ([], lineIdx)
  | i :: rest, lineIdx =>
    if lineIdx < 300 then
      if regionMap.get? i ≠ some 0 then injectGo regionMap activations frontVecs npos rest lineIdx
      else
        let actIdx := i % activations.length
        let val := activations.getD actIdx 0
        if val < 3/20 then injectGo regionMap activations frontVecs npos rest lineIdx
        else
          match frontVecs.get? actIdx, npos.get? i with
          | some v1, some np =>
            let res := injectGo regionMap activations frontVecs npos rest (lineIdx + 1)
            (⟨i, actIdx, val, v1, np⟩ :: res.1, res.2)
          | _, _ => injectGo regionMap activations frontVecs npos rest lineIdx
    else ([], lineIdx)

/-- One `useFrame` tick of `InjectFlow`: the empty-input guard short
circuits to zero lines and draw range 0; otherwise the loop runs over
`i < size && i < neuronPositions.length` starting at `lineIdx = 0`. -/
def injectFlowRun (npos : List Vec3) (regionMap : List Nat) (activations : List ℚ)
    (frontVecs : List Vec3) (size : Nat) : List FlowLine × Nat :=
  if activations.length = 0 ∨ npos.length = 0 then ([], 0)
  else injectGo regionMap activations frontVecs npos (List.range (min size npos.length)) 0

/-- The emitted `InjectFlow` lines of one frame. -/
def injectFlowLines (npos : List Vec3) (regionMap : List Nat) (activations : List ℚ)
    (frontVecs : List Vec3) (size : Nat) : List FlowLine :=
  (injectFlowRun npos regionMap activations frontVecs size).1

/-- The draw range set by `InjectFlow` at the end of the frame:
`setDrawRange(0, lineIdx * 2)` (two vertices per line). -/
def injectDrawRange (npos : List Vec3) (regionMap : List Nat) (activations : List ℚ)
    (frontVecs : List Vec3) (size : Nat) : Nat :=
  2 * (injectFlowRun npos regionMap activations frontVecs size).2

/-- One emitted `HebbianWeb` line: the index pair, both endpoints, the
clamped product strength and the region-pair color. -/
structure HebLine where
  i : Nat
  j : Nat
  a : Vec3
  b : Vec3
  strength : ℚ
  color : Vec3
deriving DecidableEq, Repr

/-- The qualification test of one candidate pair inside the `HebbianWeb`
frame loop: both endpoint activations strictly above the 0.4 threshold,
then both indices inside the backend position array (the loop `continue`s
on `i >= neuronPositions.length || j >= neuronPositions.length`). -/
def hebbianQual (activity : List ActEntry) (npos : List Vec3) (p : Nat × Nat) : Bool :=
  decide (actVal activity p.1 > 2/5) && decide (actVal activity p.2 > 2/5) &&
    decide (p.1 < npos.length) && decide (p.2 < npos.length)

/-- The region-pair color lookup of `HebbianWeb`: both Auditory green, both
Semantic gold, both Limbic purple, either Association cyan, otherwise the
dim blue-grey default (also taken when a region read is out of range). -/
def pairColor (regionMap : List Nat) (i j : Nat) : Vec3 :=
  let r1 := regionMap.get? i
  let r2 := regionMap.get? j
  if r1 = some 1 ∧ r2 = some 1 then ⟨2/10, 1, 2/10⟩
  else if r1 = some 0 ∧ r2 = some 0 then ⟨1, 8/10, 2/10⟩
  else if r1 = some 2 ∧ r2 = some 2 then ⟨6/10, 1/10, 1⟩
  else if r1 = some 3 ∨ r2 = some 3 then ⟨2/10, 7/10, 1⟩
  else ⟨1/10, 3/10, 1/2⟩

/-- The line record written for a qualifying pair: endpoints from the
backend positions, `strength = min(vi * vj, 1.0)` and the region-pair
color (written to both vertices). -/
def hebbianMk (activity : List ActEntry) (npos : List Vec3) (regionMap : List Nat)
    (p : Nat × Nat) : HebLine :=
  { i := p.1, j := p.2,
    a := npos.getD p.1 ⟨0, 0, 0⟩, b := npos.getD p.2 ⟨0, 0, 0⟩,
    strength := min (actVal activity p.1 * actVal activity p.2) 1,
    color := pairColor regionMap p.1 p.2 }

/-- The `HebbianWeb` frame loop over the sampled candidate pairs
(`for k = 0; k < pairs.length && lineIdx < 600; k++`). -/
def hebbianGo (activity : List ActEntry) (npos : List Vec3) (regionMap : List Nat) :
    List (Nat × Nat) → Nat → List HebLine
  | [], _ => []
  | p :: rest, lineIdx =>
    if lineIdx < 600 then
      if hebbianQual activity npos p then
        hebbianMk activity npos regionMap p :: hebbianGo activity npos regionMap rest (lineIdx + 1)
      else hebbianGo activity npos regionMap rest lineIdx
    else []

/-- One `useFrame` tick of `HebbianWeb`: the empty-input guard short
circuits to zero lines; otherwise the loop runs from `lineIdx = 0`. -/
def hebbianFrame (npos : List Vec3) (activity : List ActEntry)
    (pairs : List (Nat × Nat)) (regionMap : List Nat) : List HebLine :=
  if activity.length = 0 ∨ npos.length = 0 then []
  else hebbianGo activity npos regionMap pairs 0

/-- The `EntropyRing` frame body: `e = entropy || 0`; trauma when the state
label is exactly `Escalating` or `Critical`; three-branch precedence
red ramp / orange ramp (entropy above 0.7) / calm blue. Returns the
material color and opacity. -/
def entropyRingStyle (entropy : Option ℚ) (traumaState : String) : Vec3 × ℚ :=
  let e := entropy.getD 0
  if traumaState = "Escalating" ∨ traumaState = "Critical" then
    (⟨1, 2/10, 1/10⟩, 6/10 + e * (3/10))
  else if e > 7/10 then
    (⟨8/10, 4/10, 1/10⟩, 3/10 + e * (2/10))
  else
    (⟨15/100, 4/10, 8/10⟩, 1/10 + e * (15/100))

/-- Threads a PRNG state through `n` invocations of a node generator,
collecting the generated nodes in order (the per-iteration body of the
layout generators). -/
def genList {α : Type} (step : Nat → α × Nat) : Nat → Nat → List α × Nat
  | st, 0 => ([], st)
  | st, n + 1 =>
    let r := step st
    let rest := genList step r.2 n
    (r.1 :: rest.1, rest.2)

/-- One iteration of the `generateNeocortex` loop: two PRNG draws give the
spherical angles, the hemisphere split pushes small `|x|` outward, the
cortical-folding noise perturbs the radius for `y`/`z` only, the bottom is
flattened, `z` elongated, `x` compressed; a third draw gives the point
size. Returns (position, initial dark color, size) and the new PRNG state. -/
def neoNode (ops : RealOps) (st : Nat) : (Vec3 × Vec3 × ℚ) × Nat :=
  let s1 := mulberry32Step st
  let u := rngUnit s1.2
  let s2 := mulberry32Step s1.1
  let v := rngUnit s2.2
  let theta := 2 * ops.pi * u
  let phi := ops.acos (2 * v - 1)
  let r := BRAIN_RADIUS
  let x_raw := r * ops.sin phi * ops.cos theta
  let x_mod := if |x_raw| < 2 then x_raw + (if x_raw > 0 then 3 else -3) else x_raw
  let noise := ops.sin (phi * 12) * ops.cos (theta * 10) * (3/2)
  let r2 := r + noise
  let z0 := r2 * ops.sin phi * ops.sin theta
  let y0 := r2 * ops.cos phi
  let y1 := if y0 < -15 then y0 * (8/10) else y0
  let z1 := z0 * (12/10)
  let x := x_mod * (9/10)
  let s3 := mulberry32Step s2.1
  ((⟨x, y1, z1⟩, ⟨1/50, 1/25, 3/50⟩, 1/2 + rngUnit s3.2 * 1), s3.1)

/-- `generateNeocortex`: 2500 reservoir nodes from `mulberry32(1337)`. -/
def generateNeocortex (ops : RealOps) : List (Vec3 × Vec3 × ℚ) :=
  (genList (neoNode ops) 1337 2500).1

/-- One iteration of the `generateFrontalLobe` loop: two draws give the
angles (`theta = pi * u`), a third the radius `12 + rng()*8`, the
half-sphere is folded by `|r cos phi|`, pushed forward by 25, `y`
compressed, and a fourth draw mirrors `x` with probability one half.
Returns (position, initial dark color) and the new PRNG state. -/
def frontNode (ops : RealOps) (st : Nat) : (Vec3 × Vec3) × Nat :=
  let s1 := mulberry32Step st
  let u := rngUnit s1.2
  let s2 := mulberry32Step s1.1
  let v := rngUnit s2.2
  let theta := ops.pi * u
  let phi := ops.acos (2 * v - 1)
  let s3 := mulberry32Step s2.1
  let r := 12 + rngUnit s3.2 * 8
  let x0 := r * ops.sin phi * ops.cos theta
  let y0 := r * ops.sin phi * ops.sin theta
  let z0 := |r * ops.cos phi|
  let z1 := z0 + 25
  let y1 := y0 * (6/10)
  let s4 := mulberry32Step s3.1
  let x1 := if rngUnit s4.2 > 1/2 then -x0 else x0
  ((⟨x1, y1, z1⟩, ⟨1/50, 1/100, 3/100⟩), s4.1)

/-- `generateFrontalLobe`: 512 concept nodes from `mulberry32(999)`. -/
def generateFrontalLobe (ops : RealOps) : List (Vec3 × Vec3) :=
  (genList (frontNode ops) 999 512).1

/-- The `ReservoirView` size computation: `rawSize = telemetry?.
reservoir_size || 0; displaySize = rawSize > 100 ? rawSize :
Math.floor(MAX_NEURONS * 0.8)`. -/
def displaySize (reservoir_size : Option Int) : Int :=
  let rawSize := reservoir_size.getD 0
  if rawSize > 100 then rawSize else Int.floor ((MAX_NEURONS : ℚ) * (8/10))

/-- Every pair emitted by the sampling loop has distinct indices (the loop
`continue`s on `i === j`) and both indices inside the position array (a pair
is only pushed after both position lookups succeed). -/
theorem swLoop_mem (npos : List Vec3) (nCount : Nat) :
    ∀ fuel st got, List.Forall
      (fun p : Nat × Nat => p.1 ≠ p.2 ∧ p.1 < npos.length ∧ p.2 < npos.length)
      (swLoop npos nCount fuel st got) := by
  intro fuel
  induction fuel with
  | zero => intro st got; simp [swLoop]
  | succ n ih =>
    intro st got
    simp only [swLoop]
    split
    · split
      · exact ih _ _
      · rename_i hij
        split
        · rename_i pi_ pj heq1 heq2
          obtain ⟨hb1, -⟩ := List.get?_eq_some.mp heq1
          obtain ⟨hb2, -⟩ := List.get?_eq_some.mp heq2
          split
          · simp only [List.forall_cons]
            exact ⟨⟨hij, hb1, hb2⟩, ih _ _⟩
          · split
            · simp only [List.forall_cons]
              exact ⟨⟨hij, hb1, hb2⟩, ih _ _⟩
            · exact ih _ _
        · exact ih _ _
    · simp

/-- The sampling loop never collects more than `1000 - got` further pairs:
the `p.length < targetPairs` condition stops collection at 1000. -/
theorem swLoop_length (npos : List Vec3) (nCount : Nat) :
    ∀ fuel st got, (swLoop npos nCount fuel st got).length ≤ 1000 - got := by
  intro fuel
  induction fuel with
  | zero => intro st got; simp [swLoop]
  | succ n ih =>
    intro st got
    simp only [swLoop]
    split
    · rename_i hg
      split
      · exact ih _ _
      · split
        · split
          · simp only [List.length_cons]
            exact le_trans (Nat.succ_le_succ (ih _ _)) (by omega)
          · split
            · simp only [List.length_cons]
              exact le_trans (Nat.succ_le_succ (ih _ _)) (by omega)
            · exact ih _ _
        · exact ih _ _
    · simp

/-- `ltInvDist` decides exactly the real inequality
`r < 5 / (sqrt d2 + 0.1)` used by the small-world acceptance test, where
`d2` is the squared Euclidean distance. -/
theorem ltInvDist_iff (r d2 : ℚ) (hd : 0 ≤ d2) :
    ltInvDist r d2 = true ↔ (r : ℝ) < 5 / (Real.sqrt (d2 : ℝ) + 1/10) := by
  have hd_r : (0 : ℝ) ≤ (d2 : ℝ) := by exact_mod_cast hd
  have hs0 : (0 : ℝ) ≤ Real.sqrt (d2 : ℝ) := Real.sqrt_nonneg _
  have hsq : Real.sqrt (d2 : ℝ) ^ 2 = (d2 : ℝ) := Real.sq_sqrt hd_r
  have hden : (0 : ℝ) < Real.sqrt (d2 : ℝ) + 1/10 := by linarith
  rw [lt_div_iff₀ hden]
  unfold ltInvDist
  split_ifs with h1 h2
  · have hr : (r : ℝ) ≤ 0 := by exact_mod_cast h1
    simp only [true_iff]
    nlinarith
  · have hr : (0 : ℝ) < (r : ℝ) := by exact_mod_cast not_le.mp h1
    have hr50 : (50 : ℝ) ≤ (r : ℝ) := by exact_mod_cast h2
    simp only [Bool.false_eq_true, false_iff, not_lt]
    nlinarith
  · have hr : (0 : ℝ) < (r : ℝ) := by exact_mod_cast not_le.mp h1
    have hr50 : (r : ℝ) < 50 := by exact_mod_cast not_le.mp h2
    have hrhs : (0 : ℝ) < 5 - (r : ℝ)/10 := by linarith
    have hsqmul : ((r : ℝ) * Real.sqrt (d2 : ℝ)) * ((r : ℝ) * Real.sqrt (d2 : ℝ))
        = (r : ℝ) ^ 2 * (d2 : ℝ) := by
      have hrg : ((r : ℝ) * Real.sqrt (d2 : ℝ)) * ((r : ℝ) * Real.sqrt (d2 : ℝ))
          = (r : ℝ) ^ 2 * Real.sqrt (d2 : ℝ) ^ 2 := by ring
      rw [hrg, hsq]
    rw [decide_eq_true_eq]
    constructor
    · intro hq
      have hq_r : (r : ℝ) ^ 2 * (d2 : ℝ) < ((5 : ℝ) - (r : ℝ)/10) ^ 2 := by
        exact_mod_cast hq
      by_contra hcon
      push_neg at hcon
      have hba : (5 - (r : ℝ)/10) ≤ (r : ℝ) * Real.sqrt (d2 : ℝ) := by nlinarith
      have hsqle : (5 - (r : ℝ)/10) * (5 - (r : ℝ)/10)
          ≤ ((r : ℝ) * Real.sqrt (d2 : ℝ)) * ((r : ℝ) * Real.sqrt (d2 : ℝ)) :=
        mul_self_le_mul_self (le_of_lt hrhs) hba
      nlinarith
    · intro hlt
      have hab : (r : ℝ) * Real.sqrt (d2 : ℝ) < 5 - (r : ℝ)/10 := by nlinarith
      have hsqlt : ((r : ℝ) * Real.sqrt (d2 : ℝ)) * ((r : ℝ) * Real.sqrt (d2 : ℝ))
          < (5 - (r : ℝ)/10) * (5 - (r : ℝ)/10) :=
        mul_self_lt_mul_self (mul_nonneg (le_of_lt hr) hs0) hab
      have : (r : ℝ) ^ 2 * (d2 : ℝ) < ((5 : ℝ) - (r : ℝ)/10) ^ 2 := by nlinarith
      exact_mod_cast this

/-- C2: every pair produced by the small-world sampler has i different from
j; the sampler never returns more than 1000 pairs, for every input position
set including the empty one (the loop is bounded by 10000 attempts by
construction, being defined on that fuel); and one attempt accepts exactly
when the proximity draw is below min(1, 5/(d+0.1)) (d the Euclidean
distance, i.e. the square root of the rational squared distance) or the
long-range draw is below 0.01 — the `min 1` clamp being immaterial because
PRNG outputs are below 1. -/
theorem smallWorld_spec :
    (∀ npos, List.Forall (fun p : Nat × Nat => p.1 ≠ p.2) (smallWorldPairs npos)) ∧
    (∀ npos, (smallWorldPairs npos).length ≤ 1000) ∧
    smallWorldPairs [] = [] ∧
    (∀ r1 r2 d2 : ℚ, 0 ≤ r1 → r1 < 1 → 0 ≤ d2 →
      (acceptPair r1 r2 d2 = true ↔
        ((r1 : ℝ) < min 1 (5 / (Real.sqrt (d2 : ℝ) + 1/10)) ∨ r2 < 1/100))) := by
  refine ⟨?_, ?_, rfl, ?_⟩
  · intro npos
    unfold smallWorldPairs
    split
    · simp
    · have h := swLoop_mem npos (min npos.length MAX_NEURONS) 10000 101 0
      rw [List.forall_iff_forall_mem] at h ⊢
      exact fun p hp => (h p hp).1
  · intro npos
    unfold smallWorldPairs
    split
    · simp
    · exact le_trans (swLoop_length npos (min npos.length MAX_NEURONS) 10000 101 0) (by omega)
  · intro r1 r2 d2 h0 h1 hd
    unfold acceptPair
    rw [Bool.or_eq_true, decide_eq_true_eq, ltInvDist_iff r1 d2 hd]
    have hr1 : (r1 : ℝ) < 1 := by exact_mod_cast h1
    constructor
    · rintro (h | h)
      · exact Or.inl (lt_min_iff.mpr ⟨hr1, h⟩)
      · exact Or.inr h
    · rintro (h | h)
      · exact Or.inl (lt_min_iff.mp h).2
      · exact Or.inr h

/-- Witness for `smallWorld_spec`: its hypotheses hold and its acceptance
characterization applies at the concrete draws 1/2, 1/2 and squared
distance 4. -/
theorem smallWorld_spec_witness :
    ((0 : ℚ) ≤ 1/2 ∧ (1/2 : ℚ) < 1 ∧ (0 : ℚ) ≤ 4) ∧
    (acceptPair (1/2) (1/2) 4 = true ↔
      (((1/2 : ℚ) : ℝ) < min 1 (5 / (Real.sqrt ((4 : ℚ) : ℝ) + 1/10)) ∨ (1/2 : ℚ) < 1/100)) :=
  ⟨⟨by norm_num, by norm_num, by norm_num⟩,
   smallWorld_spec.2.2.2 (1/2) (1/2) 4 (by norm_num) (by norm_num) (by norm_num)⟩

/-- C1: every frame, each reservoir index at or beyond the count the
backend reports (the length of the `neuron_positions` array, 0 when the
field is absent) and below the capacity `MAX_NEURONS` is forced by the
`Connectome` frame to the origin position and the fully dark `(0,0,0)`
color, so shrinking the reported count cannot leave stale bright nodes in
the buffers. -/
theorem connectome_clears_stale (ops : RealOps) (time : ℚ) (activity : List ActEntry)
    (regionMap : List Nat) (neuronPositions : Option (List Vec3))
    (buf : (Nat → Vec3) × (Nat → Vec3)) (i : Nat)
    (hcount : (neuronPositions.getD []).length ≤ i) (hcap : i < MAX_NEURONS) :
    (connectomeFrame ops time activity regionMap neuronPositions buf).1 i = ⟨0, 0, 0⟩ ∧
    (connectomeFrame ops time activity regionMap neuronPositions buf).2 i = ⟨0, 0, 0⟩ := by
  have hmin : min (neuronPositions.getD []).length MAX_NEURONS
      ≤ (neuronPositions.getD []).length :=
    min_le_left _ _
  have hc : ¬ i < min (neuronPositions.getD []).length MAX_NEURONS := by omega
  have hlen : ¬ i < (neuronPositions.getD []).length := by omega
  constructor <;> simp [connectomeFrame, hcap, hc, hlen]

/-- Witness for `connectome_clears_stale` at index 7 with an absent
position field and bright initial buffers. -/
theorem connectome_clears_stale_witness :
    (((none : Option (List Vec3)).getD []).length ≤ 7 ∧ 7 < MAX_NEURONS) ∧
    (connectomeFrame zeroOps 0 [] [] none
      (fun _ => ⟨1, 1, 1⟩, fun _ => ⟨1, 1, 1⟩)).1 7 = ⟨0, 0, 0⟩ ∧
    (connectomeFrame zeroOps 0 [] [] none
      (fun _ => ⟨1, 1, 1⟩, fun _ => ⟨1, 1, 1⟩)).2 7 = ⟨0, 0, 0⟩ :=
  ⟨⟨by decide, by decide⟩,
   connectome_clears_stale zeroOps 0 [] [] none
     (fun _ => ⟨1, 1, 1⟩, fun _ => ⟨1, 1, 1⟩) 7 (by decide) (by decide)⟩

/-- C3: the guarded activation lookup is total — an index at or beyond the
activations array length reads the inactive value 0; consequently the
Connectome colors such a node with the zero-intensity ambient floor
(regardless of region), and the HebbianWeb threshold test fails for any
pair touching such an index, so no line is drawn from it. No out-of-bounds
access can occur: the embedding of the guarded read is a total function. -/
theorem activation_oob (activity : List ActEntry) (i : Nat)
    (h : activity.length ≤ i) :
    actVal activity i = 0 ∧
    (∀ regionMap, connectomeColor activity regionMap i = ⟨1/50, 1/50, 1/25⟩) ∧
    (∀ npos j, hebbianQual activity npos (i, j) = false ∧
      hebbianQual activity npos (j, i) = false) := by
  have hval : actVal activity i = 0 := by
    unfold actVal
    rw [List.get?_eq_none.mpr h]
  have hdec : decide (actVal activity i > 2/5) = false := by
    rw [hval]; norm_num
  refine ⟨hval, ?_, ?_⟩
  · intro rm
    simp only [connectomeColor, hval, Vec3.mk.injEq]
    split_ifs <;> norm_num
  · intro npos j
    constructor <;> simp [hebbianQual, hdec]

/-- Witness for `activation_oob` on an empty activations array at index 2. -/
theorem activation_oob_witness :
    (List.length ([] : List ActEntry) ≤ 2) ∧
    actVal [] 2 = 0 ∧
    connectomeColor [] [0] 2 = ⟨1/50, 1/50, 1/25⟩ ∧
    hebbianQual [] [] (2, 0) = false :=
  ⟨by decide, (activation_oob [] 2 (by decide)).1,
   (activation_oob [] 2 (by decide)).2.1 [0],
   ((activation_oob [] 2 (by decide)).2.2 [] 0).1⟩

/-- C4: frame processing is idempotent. Each `useFrame` tick overwrites
every buffer index with a value that does not depend on the previous buffer
contents, so applying the same snapshot a second time (the Connectome at
the same elapsed-time sample, since its position jitter reads the clock)
reproduces the buffers of the first application exactly; the color buffers
agree even across different elapsed-time samples, as the coloring is
time-independent. -/
theorem frame_idempotent :
    (∀ ops time activity regionMap neuronPositions buf,
      connectomeFrame ops time activity regionMap neuronPositions
        (connectomeFrame ops time activity regionMap neuronPositions buf) =
      connectomeFrame ops time activity regionMap neuronPositions buf) ∧
    (∀ activations buf,
      frontalFrame activations (frontalFrame activations buf) =
      frontalFrame activations buf) ∧
    (∀ ops t1 t2 activity regionMap neuronPositions b1 b2 i, i < MAX_NEURONS →
      (connectomeFrame ops t1 activity regionMap neuronPositions b1).2 i =
      (connectomeFrame ops t2 activity regionMap neuronPositions b2).2 i) := by
  refine ⟨?_, ?_, ?_⟩
  · intro ops time act rm np buf
    have h1 : ∀ i,
        (connectomeFrame ops time act rm np (connectomeFrame ops time act rm np buf)).1 i =
        (connectomeFrame ops time act rm np buf).1 i := by
      intro i
      by_cases h : i < MAX_NEURONS <;> simp [connectomeFrame, h]
    have h2 : ∀ i,
        (connectomeFrame ops time act rm np (connectomeFrame ops time act rm np buf)).2 i =
        (connectomeFrame ops time act rm np buf).2 i := by
      intro i
      by_cases h : i < MAX_NEURONS <;> simp [connectomeFrame, h]
    exact Prod.ext_iff.mpr ⟨funext h1, funext h2⟩
  · intro acts buf
    funext i
    by_cases h : i < 512 <;> simp [frontalFrame, h]
  · intro ops t1 t2 act rm np b1 b2 i h
    simp [connectomeFrame, h]

/-- Witness for `frame_idempotent`: the color of node 0 agrees across two
frames at different elapsed times and different prior buffers. -/
theorem frame_idempotent_witness :
    (0 < MAX_NEURONS) ∧
    (connectomeFrame zeroOps 0 [] [] none (fun _ => ⟨1, 2, 3⟩, fun _ => ⟨4, 5, 6⟩)).2 0 =
    (connectomeFrame zeroOps 5 [] [] none (fun _ => ⟨7, 8, 9⟩, fun _ => ⟨1, 1, 1⟩)).2 0 :=
  ⟨by decide,
   frame_idempotent.2.2 zeroOps 0 5 [] [] none
     (fun _ => ⟨1, 2, 3⟩, fun _ => ⟨4, 5, 6⟩)
     (fun _ => ⟨7, 8, 9⟩, fun _ => ⟨1, 1, 1⟩) 0 (by decide)⟩

/-- C5: the Entropy Ring color follows a three-branch precedence — a trauma
state label of Escalating or Critical forces the red ramp regardless of the
entropy value; otherwise entropy above 0.7 gives the orange ramp; otherwise
the calm-blue ramp. In particular trauma_state Critical with entropy 0.9
takes the red branch (color (1.0, 0.2, 0.1), opacity 0.6 + 0.9*0.3 = 0.87),
so the trauma check precedes the entropy-threshold check. -/
theorem entropy_ring_precedence :
    (∀ (entropy : Option ℚ) (traumaState : String),
      (traumaState = "Escalating" ∨ traumaState = "Critical") →
      entropyRingStyle entropy traumaState =
        (⟨1, 2/10, 1/10⟩, 6/10 + (entropy.getD 0) * (3/10))) ∧
    (∀ (entropy : Option ℚ) (traumaState : String),
      ¬(traumaState = "Escalating" ∨ traumaState = "Critical") →
      entropy.getD 0 > 7/10 →
      entropyRingStyle entropy traumaState =
        (⟨8/10, 4/10, 1/10⟩, 3/10 + (entropy.getD 0) * (2/10))) ∧
    (∀ (entropy : Option ℚ) (traumaState : String),
      ¬(traumaState = "Escalating" ∨ traumaState = "Critical") →
      ¬(entropy.getD 0 > 7/10) →
      entropyRingStyle entropy traumaState =
        (⟨15/100, 4/10, 8/10⟩, 1/10 + (entropy.getD 0) * (15/100))) ∧
    entropyRingStyle (some (9/10)) "Critical" = (⟨1, 2/10, 1/10⟩, 87/100) := by
  refine ⟨?_, ?_, ?_, ?_⟩
  · intro e ts h
    simp [entropyRingStyle, h]
  · intro e ts h h2
    simp [entropyRingStyle, h, h2]
  · intro e ts h h2
    simp [entropyRingStyle, h, h2]
  · norm_num [entropyRingStyle]

/-- Witness for `entropy_ring_precedence`: the red branch at trauma state
Critical and entropy 0.9, the orange branch at a calm label with entropy
0.8, and the blue branch at a calm label with entropy 0.2. -/
theorem entropy_ring_precedence_witness :
    ((("Critical" : String) = "Escalating" ∨ ("Critical" : String) = "Critical") ∧
      ¬(("Stable" : String) = "Escalating" ∨ ("Stable" : String) = "Critical") ∧
      ((some (8/10) : Option ℚ).getD 0 > 7/10) ∧
      ¬((some (2/10) : Option ℚ).getD 0 > 7/10)) ∧
    entropyRingStyle (some (9/10)) "Critical" =
      (⟨1, 2/10, 1/10⟩, 6/10 + ((some (9/10) : Option ℚ).getD 0) * (3/10)) ∧
    entropyRingStyle (some (8/10)) "Stable" =
      (⟨8/10, 4/10, 1/10⟩, 3/10 + ((some (8/10) : Option ℚ).getD 0) * (2/10)) ∧
    entropyRingStyle (some (2/10)) "Stable" =
      (⟨15/100, 4/10, 8/10⟩, 1/10 + ((some (2/10) : Option ℚ).getD 0) * (15/100)) :=
  ⟨⟨Or.inr rfl, by decide, by norm_num, by norm_num⟩,
   entropy_ring_precedence.1 (some (9/10)) "Critical" (Or.inr rfl),
   entropy_ring_precedence.2.1 (some (8/10)) "Stable" (by decide) (by norm_num),
   entropy_ring_precedence.2.2.1 (some (2/10)) "Stable" (by decide) (by norm_num)⟩

/-- The `lineIdx` counter returned by the InjectFlow loop equals the number
of lines already emitted plus the number it emits. -/
theorem injectGo_count (rm : List Nat) (acts : List ℚ) (fv : List Vec3) (npos : List Vec3) :
    ∀ rem lineIdx, (injectGo rm acts fv npos rem lineIdx).2 =
      lineIdx + (injectGo rm acts fv npos rem lineIdx).1.length := by
  intro rem
  induction rem with
  | nil => intro k; simp [injectGo]
  | cons i rest ih =>
    intro k
    simp only [injectGo]
    split
    · split
      · exact ih k
      · split
        · exact ih k
        · split
          · simp only [List.length_cons]
            rw [ih (k + 1)]
            omega
          · exact ih k
    · simp

/-- The InjectFlow loop emits at most `300 - lineIdx` further lines. -/
theorem injectGo_length (rm : List Nat) (acts : List ℚ) (fv : List Vec3) (npos : List Vec3) :
    ∀ rem lineIdx, (injectGo rm acts fv npos rem lineIdx).1.length ≤ 300 - lineIdx := by
  intro rem
  induction rem with
  | nil => intro k; simp [injectGo]
  | cons i rest ih =>
    intro k
    simp only [injectGo]
    split
    · rename_i hk
      split
      · exact ih k
      · split
        · exact ih k
        · split
          · simp only [List.length_cons]
            exact le_trans (Nat.succ_le_succ (ih (k + 1))) (by omega)
          · exact ih k
    · simp

/-- Every line the InjectFlow loop emits carries a Semantic region tag, the
mod-paired source index, that source activation, and an activation of at
least 0.15. -/
theorem injectGo_forall (rm : List Nat) (acts : List ℚ) (fv : List Vec3) (npos : List Vec3) :
    ∀ rem lineIdx, List.Forall
      (fun L : FlowLine => rm.get? L.resIdx = some 0 ∧ L.srcIdx = L.resIdx % acts.length ∧
        L.val = acts.getD L.srcIdx 0 ∧ 3/20 ≤ L.val)
      (injectGo rm acts fv npos rem lineIdx).1 := by
  intro rem
  induction rem with
  | nil => intro k; simp [injectGo]
  | cons i rest ih =>
    intro k
    simp only [injectGo]
    split
    · split
      · exact ih k
      · rename_i hreg
        split
        · exact ih k
        · rename_i hval
          split
          · rw [List.forall_cons]
            refine ⟨⟨not_not.mp hreg, ?_, ?_, not_lt.mp hval⟩, ih (k + 1)⟩ <;> rfl
          · exact ih k
    · simp

/-- C6 counterexample: a Semantic-tagged reservoir node whose paired source
activation equals exactly 0.15 DOES get an Inject-Flow line that frame
(the source only skips `val < 0.15`), although 0.15 does not exceed 0.15 —
so emission is not limited to activations strictly above 0.15. -/
theorem inject_threshold_boundary :
    injectFlowLines [⟨0, 0, 0⟩] [0] [3/20] [⟨1, 2, 3⟩] 1 =
      [⟨0, 0, 3/20, ⟨1, 2, 3⟩, ⟨0, 0, 0⟩⟩] ∧
    ¬((3 : ℚ)/20 > 3/20) := by
  constructor
  · norm_num [injectFlowLines, injectFlowRun, injectGo, List.range, List.range.loop]
  · norm_num

/-- C6 (amended): every frame, an Inject-Flow line is emitted for reservoir
index i only if i is tagged Semantic and the paired source activation at
index (i mod concept count) is at least 0.15 (the loop skips exactly the
values strictly below 0.15); at most 300 lines are emitted per frame, and
the draw range is set to twice the number of emitted lines, excluding all
unused slots. A Semantic-tagged node with paired activation 0.10 produces
zero Inject-Flow lines that frame. -/
theorem inject_flow_spec :
    (∀ npos rm acts fv size, List.Forall
      (fun L : FlowLine => rm.get? L.resIdx = some 0 ∧ L.srcIdx = L.resIdx % acts.length ∧
        L.val = acts.getD L.srcIdx 0 ∧ 3/20 ≤ L.val)
      (injectFlowLines npos rm acts fv size)) ∧
    (∀ npos rm acts fv size, (injectFlowLines npos rm acts fv size).length ≤ 300) ∧
    (∀ npos rm acts fv size, injectDrawRange npos rm acts fv size =
      2 * (injectFlowLines npos rm acts fv size).length) ∧
    injectFlowLines [⟨0, 0, 0⟩] [0] [1/10] [⟨1, 1, 1⟩] 1 = [] := by
  refine ⟨?_, ?_, ?_,
    by norm_num [injectFlowLines, injectFlowRun, injectGo, List.range, List.range.loop]⟩
  · intro npos rm acts fv size
    unfold injectFlowLines injectFlowRun
    split
    · simp
    · exact injectGo_forall rm acts fv npos _ 0
  · intro npos rm acts fv size
    unfold injectFlowLines injectFlowRun
    split
    · simp
    · exact le_trans (injectGo_length rm acts fv npos _ 0) (by omega)
  · intro npos rm acts fv size
    unfold injectDrawRange injectFlowLines injectFlowRun
    split
    · simp
    · rw [injectGo_count rm acts fv npos _ 0]
      omega

/-- The HebbianWeb frame loop draws exactly the first `600 - lineIdx`
qualifying pairs, in order. -/
theorem hebbianGo_eq (act : List ActEntry) (npos : List Vec3) (rm : List Nat) :
    ∀ pairs lineIdx, hebbianGo act npos rm pairs lineIdx =
      ((pairs.filter (hebbianQual act npos)).take (600 - lineIdx)).map
        (hebbianMk act npos rm) := by
  intro pairs
  induction pairs with
  | nil => intro k; simp [hebbianGo]
  | cons p rest ih =>
    intro k
    simp only [hebbianGo]
    by_cases hk : k < 600
    · simp only [if_pos hk]
      by_cases hq : hebbianQual act npos p = true
      · rw [if_pos hq, List.filter_cons_of_pos hq, ih (k + 1)]
        have hsub : 600 - k = (600 - (k + 1)) + 1 := by omega
        rw [hsub, List.take_succ_cons, List.map_cons]
      · rw [if_neg hq, List.filter_cons_of_neg (by simpa using hq), ih k]
    · simp only [if_neg hk]
      have hsub : 600 - k = 0 := by omega
      rw [hsub, List.take_zero, List.map_nil]

/-- C7: the lines drawn by one HebbianWeb frame are exactly the first 600
candidate pairs (in sampled order) whose two endpoint activations both
exceed the 0.4 threshold (and whose indices are inside the position array —
automatically true of every sampler pair, as also proved here); each drawn
line has strength equal to the product of the endpoint activations clamped
to 1 and its color from the region-pair lookup; at most 600 lines are drawn
per frame. -/
theorem hebbian_web_spec :
    (∀ act npos rm pairs, hebbianGo act npos rm pairs 0 =
      ((pairs.filter (hebbianQual act npos)).take 600).map (hebbianMk act npos rm)) ∧
    (∀ act npos rm pairs, List.Forall
      (fun L : HebLine => actVal act L.i > 2/5 ∧ actVal act L.j > 2/5 ∧
        L.strength = min (actVal act L.i * actVal act L.j) 1 ∧
        L.color = pairColor rm L.i L.j)
      (hebbianFrame npos act pairs rm)) ∧
    (∀ act npos rm pairs, (hebbianFrame npos act pairs rm).length ≤ 600) ∧
    (∀ npos, List.Forall (fun p : Nat × Nat => p.1 < npos.length ∧ p.2 < npos.length)
      (smallWorldPairs npos)) := by
  have hmain : ∀ (act : List ActEntry) (npos : List Vec3) (rm : List Nat)
      (pairs : List (Nat × Nat)), hebbianGo act npos rm pairs 0 =
      ((pairs.filter (hebbianQual act npos)).take 600).map (hebbianMk act npos rm) := by
    intro act npos rm pairs
    have h := hebbianGo_eq act npos rm pairs 0
    simpa using h
  refine ⟨hmain, ?_, ?_, ?_⟩
  · intro act npos rm pairs
    rw [List.forall_iff_forall_mem]
    intro L hL
    unfold hebbianFrame at hL
    split at hL
    · simp at hL
    · rw [hmain] at hL
      obtain ⟨p, hp, rfl⟩ := List.mem_map.mp hL
      have hpf : p ∈ pairs.filter (hebbianQual act npos) := List.mem_of_mem_take hp
      have hq : hebbianQual act npos p = true := (List.mem_filter.mp hpf).2
      unfold hebbianQual at hq
      simp only [Bool.and_eq_true, decide_eq_true_eq] at hq
      exact ⟨hq.1.1.1, hq.1.1.2, rfl, rfl⟩
  · intro act npos rm pairs
    unfold hebbianFrame
    split
    · simp
    · rw [hmain, List.length_map, List.length_take]
      exact min_le_left _ _
  · intro npos
    unfold smallWorldPairs
    split
    · simp
    · have h := swLoop_mem npos (min npos.length MAX_NEURONS) 10000 101 0
      rw [List.forall_iff_forall_mem] at h ⊢
      exact fun p hp => (h p hp).2

/-- Reading any index below the length of a replicated list yields the
replicated element. -/
theorem getD_replicate_of_lt {α : Type} (a d : α) :
    ∀ n i, i < n → (List.replicate n a).getD i d = a := by
  intro n
  induction n with
  | zero => intro i h; omega
  | succ m ih =>
    intro i h
    cases i with
    | zero => simp [List.replicate_succ]
    | succ k =>
      rw [List.replicate_succ, List.getD_cons_succ]
      exact ih k (by omega)

/-- C8: each of the 512 concept-node colors is purely a function of that
index's activation — the frame writes `frontalColor`, which depends only on
the guarded per-index read; activation 0.2 (above the 0.05 threshold) gives
the non-dark gold/orange color (0.28, 0.1, 0.04) at every concept index,
and activation 0.01 (below the threshold) gives the dark latent color at
every concept index. -/
theorem frontal_color_spec :
    (∀ acts buf i, i < 512 → frontalFrame acts buf i = frontalColor acts i) ∧
    (∀ (a1 a2 : List ℚ) (i : Nat), a1.getD i 0 = a2.getD i 0 →
      frontalColor a1 i = frontalColor a2 i) ∧
    (∀ i, i < 512 → frontalColor (List.replicate 512 (2/10)) i = ⟨7/25, 1/10, 1/25⟩) ∧
    (∀ i, i < 512 → frontalColor (List.replicate 512 (2/10)) i ≠ ⟨1/50, 1/100, 3/100⟩) ∧
    (∀ i, i < 512 → frontalColor (List.replicate 512 (1/100)) i = ⟨1/50, 1/100, 3/100⟩) := by
  have hb : ∀ i, i < 512 →
      frontalColor (List.replicate 512 ((2:ℚ)/10)) i = ⟨7/25, 1/10, 1/25⟩ := by
    intro i h
    unfold frontalColor
    rw [getD_replicate_of_lt _ _ _ _ h]
    norm_num
  refine ⟨?_, ?_, hb, ?_, ?_⟩
  · intro acts buf i h
    simp [frontalFrame, h]
  · intro a1 a2 i h
    unfold frontalColor
    rw [h]
  · intro i h
    rw [hb i h]
    intro hcon
    rw [Vec3.mk.injEq] at hcon
    norm_num at hcon
  · intro i h
    unfold frontalColor
    rw [getD_replicate_of_lt _ _ _ _ h]
    norm_num

/-- Witness for `frontal_color_spec` at concept index 0. -/
theorem frontal_color_spec_witness :
    ((0 : Nat) < 512 ∧
      List.getD (List.replicate 512 ((2:ℚ)/10)) 0 0 =
      List.getD (List.replicate 512 ((2:ℚ)/10)) 0 0) ∧
    frontalFrame (List.replicate 512 ((2:ℚ)/10)) (fun _ => ⟨9, 9, 9⟩) 0 =
      frontalColor (List.replicate 512 ((2:ℚ)/10)) 0 ∧
    frontalColor (List.replicate 512 ((2:ℚ)/10)) 0 =
      frontalColor (List.replicate 512 ((2:ℚ)/10)) 0 ∧
    frontalColor (List.replicate 512 ((2:ℚ)/10)) 0 = ⟨7/25, 1/10, 1/25⟩ ∧
    frontalColor (List.replicate 512 ((2:ℚ)/10)) 0 ≠ ⟨1/50, 1/100, 3/100⟩ ∧
    frontalColor (List.replicate 512 ((1:ℚ)/100)) 0 = ⟨1/50, 1/100, 3/100⟩ :=
  ⟨⟨by decide, rfl⟩,
   frontal_color_spec.1 _ _ 0 (by decide),
   frontal_color_spec.2.1 _ _ 0 rfl,
   frontal_color_spec.2.2.1 0 (by decide),
   frontal_color_spec.2.2.2.1 0 (by decide),
   frontal_color_spec.2.2.2.2 0 (by decide)⟩

/-- The PRNG-threading generator produces exactly `n` nodes. -/
theorem genList_length {α : Type} (step : Nat → α × Nat) :
    ∀ n st, ((genList step st n).1).length = n := by
  intro n
  induction n with
  | zero => intro st; simp [genList]
  | succ m ih => intro st; simp [genList, ih]

/-- Two `RealOps` records with pointwise-equal fields are equal. -/
theorem realOps_ext (o1 o2 : RealOps) (hpi : o1.pi = o2.pi)
    (hsin : ∀ q, o1.sin q = o2.sin q) (hcos : ∀ q, o1.cos q = o2.cos q)
    (hacos : ∀ q, o1.acos q = o2.acos q) : o1 = o2 := by
  cases o1
  cases o2
  simp only [RealOps.mk.injEq]
  exact ⟨hpi, funext hsin, funext hcos, funext hacos⟩

/-- C9: the layout generation is deterministic and side-effect-free. In the
embedding both generators are pure functions of the baked-in seeds (1337
for the reservoir, 999 for the concepts) and of the abstracted real-valued
operations, so two invocations agree definitionally; the outputs have the
full population sizes; and the output depends on nothing but those
operations (any two pointwise-equal interpretations produce identical
position, color, and size lists). The PRNG state is threaded explicitly
through `genList` — there is no external mutable state to observe. -/
theorem layout_deterministic :
    (∀ ops : RealOps, generateNeocortex ops = generateNeocortex ops ∧
      generateFrontalLobe ops = generateFrontalLobe ops) ∧
    (∀ ops : RealOps, (generateNeocortex ops).length = 2500 ∧
      (generateFrontalLobe ops).length = 512) ∧
    (∀ o1 o2 : RealOps, o1.pi = o2.pi → (∀ q, o1.sin q = o2.sin q) →
      (∀ q, o1.cos q = o2.cos q) → (∀ q, o1.acos q = o2.acos q) →
      generateNeocortex o1 = generateNeocortex o2 ∧
      generateFrontalLobe o1 = generateFrontalLobe o2) := by
  refine ⟨fun ops => ⟨rfl, rfl⟩,
    fun ops => ⟨genList_length _ _ _, genList_length _ _ _⟩, ?_⟩
  intro o1 o2 hpi hsin hcos hacos
  rw [realOps_ext o1 o2 hpi hsin hcos hacos]
  exact ⟨rfl, rfl⟩

/-- Witness for `layout_deterministic`: the two-run equalities at the
trivial interpretation of the real-valued operations. -/
theorem layout_deterministic_witness :
    (zeroOps.pi = zeroOps.pi) ∧
    generateNeocortex zeroOps = generateNeocortex zeroOps ∧
    generateFrontalLobe zeroOps = generateFrontalLobe zeroOps :=
  ⟨rfl,
   (layout_deterministic.2.2 zeroOps zeroOps rfl (fun _ => rfl) (fun _ => rfl)
     (fun _ => rfl)).1,
   (layout_deterministic.2.2 zeroOps zeroOps rfl (fun _ => rfl) (fun _ => rfl)
     (fun _ => rfl)).2⟩

/-- C10: a missing, zero, or at-most-100 reported reservoir_size is not
used as the line-layer node count — the view substitutes the fallback
floor(2500 * 0.8) = 2000; only a reported size strictly greater than 100 is
passed through unchanged. -/
theorem display_size_fallback :
    displaySize none = 2000 ∧
    displaySize (some 0) = 2000 ∧
    (∀ v : Int, v ≤ 100 → displaySize (some v) = 2000) ∧
    (∀ v : Int, 100 < v → displaySize (some v) = v) ∧
    Int.floor ((MAX_NEURONS : ℚ) * (8/10)) = (2000 : Int) := by
  have hcast : ((MAX_NEURONS : ℚ) * (8/10)) = ((2000 : Int) : ℚ) := by
    norm_num [MAX_NEURONS]
  have hfl : Int.floor ((MAX_NEURONS : ℚ) * (8/10)) = (2000 : Int) := by
    rw [hcast, Int.floor_intCast]
  refine ⟨?_, ?_, ?_, ?_, hfl⟩
  · simp [displaySize, hfl]
  · simp [displaySize, hfl]
  · intro v hv
    have hnot : ¬ (100 : Int) < v := not_lt.mpr hv
    simp [displaySize, hnot, hfl]
  · intro v hv
    simp [displaySize, hv]

/-- Witness for `display_size_fallback`: the fallback at a reported size of
50 and the pass-through at a reported size of 101. -/
theorem display_size_fallback_witness :
    ((50 : Int) ≤ 100 ∧ displaySize (some 50) = 2000) ∧
    ((100 : Int) < 101 ∧ displaySize (some 101) = 101) :=
  ⟨⟨by norm_num, display_size_fallback.2.2.1 50 (by norm_num)⟩,
   ⟨by norm_num, display_size_fallback.2.2.2.1 101 (by norm_num)⟩⟩

end Aleph
